import Mathlib

/-!
Shallow embedding of stream_alert/rule_processor/pre_parsers.py
(StreamAlert rule-processor pre-parsers, Python 2) and proofs about it.

Strings of the Python program are modelled as List Char (one Char per
byte; all the relevant data is byte-oriented).  The file system visible
to the process is modelled as a partial map from paths to file contents.
-/

set_option maxRecDepth 4000
set_option linter.unusedVariables false

namespace StreamAlert

/-! ## Python string primitives used by the source -/

/-- The six characters of Python 2 string.whitespace, the set stripped by
str.rstrip() with no argument. -/
def isPySpace (c : Char) : Bool :=
  c = ' ' || c = '\t' || c = '\n' || c = '\r' || c = '\x0b' || c = '\x0c'

/-- Python 2 line.rstrip(): drop every trailing whitespace character. -/
def pyRstrip (s : List Char) : List Char :=
  (s.reverse.dropWhile isPySpace).reverse

/-- Helper for pySplitLines: cur holds the current line, reversed. -/
def pySplitLinesAux : List Char → List Char → List (List Char)
  | cur, [] => if cur = [] then [] else [cur.reverse]
  | cur, c :: rest =>
      if c = '\n' then (cur.reverse ++ ['\n']) :: pySplitLinesAux [] rest
      else pySplitLinesAux (c :: cur) rest

/-- Iterating a Python 2 file object opened in mode r on Linux: the byte
stream is cut after every newline byte; each produced line keeps its
trailing newline; a final fragment without a newline is produced as well. -/
def pySplitLines (s : List Char) : List (List Char) :=
  pySplitLinesAux [] s

/-- Python str.replace for single characters (key.replace with slash and
dash in the source): replace every occurrence of a by b. -/
def pyReplace (s : List Char) (a b : Char) : List Char :=
  s.map (fun c => if c = a then b else c)

/-- Python str.rfind for a single character: index of the last occurrence,
as an Option instead of the -1 sentinel. -/
def rfindIdx : List Char → Char → Option Nat
  | [], _ => none
  | a :: rest, c =>
      match rfindIdx rest c with
      | some i => some (i + 1)
      | none => if a = c then some 0 else none

/-- posixpath.splitext: split the extension off a path.  The extension
starts at the last dot that lies strictly inside the basename, unless all
basename characters before that dot are dots themselves (hidden files
like .gz have no extension). -/
def splitext (p : List Char) : List Char × List Char :=
  match rfindIdx p '.' with
  | none => (p, [])
  | some d =>
      let f : Nat := match rfindIdx p '/' with
        | none => 0
        | some s => s + 1
      if f ≤ d then
        if ((p.drop f).take (d - f)).any (fun c => !(c = '.')) then
          (p.take d, p.drop d)
        else (p, [])
      else (p, [])

/-- Value of one hexadecimal digit, as accepted by the hex table of
urllib.unquote in Python 2 (digits, uppercase and lowercase letters). -/
def hexCharVal (c : Char) : Option Nat :=
  let n := c.toNat
  if 48 ≤ n ∧ n ≤ 57 then some (n - 48)
  else if 65 ≤ n ∧ n ≤ 70 then some (n - 55)
  else if 97 ≤ n ∧ n ≤ 102 then some (n - 87)
  else none

/-- Python s.split on the percent character: the segments between percent
signs, in order (cur holds the current segment, reversed). -/
def splitOnPercentAux : List Char → List Char → List (List Char)
  | cur, [] => [cur.reverse]
  | cur, c :: rest =>
      if c = '%' then cur.reverse :: splitOnPercentAux [] rest
      else splitOnPercentAux (c :: cur) rest

/-- Decoding of one post-percent segment of urllib.unquote: its first two
characters as a hex byte when possible, otherwise the percent sign is kept
verbatim in front of the segment. -/
def unquoteSeg : List Char → List Char
  | a :: b :: rest =>
      match hexCharVal a, hexCharVal b with
      | some x, some y => Char.ofNat (16 * x + y) :: rest
      | _, _ => '%' :: a :: b :: rest
  | seg => '%' :: seg

/-- Python 2 urllib.unquote at byte level, exactly as the library does it:
split the input on percent signs; keep the first segment; for every later
segment decode its first two characters as a hexadecimal byte, or keep the
percent sign verbatim when they are not two hexadecimal digits. -/
def pyUnquote (s : List Char) : List Char :=
  match splitOnPercentAux [] s with
  | [] => []
  | first :: segs => first ++ (segs.map unquoteSeg).flatten

/-- Decimal digit test for pyIntParse. -/
def isDigitCh (c : Char) : Bool := 48 ≤ c.toNat && c.toNat ≤ 57

/-- Value of a nonempty all-digit string. -/
def digitsVal (s : List Char) : Option Nat :=
  if s ≠ [] ∧ s.all isDigitCh then
    some (s.foldl (fun acc c => 10 * acc + (c.toNat - 48)) 0)
  else none

/-- Python 2 int(string): strip surrounding whitespace, allow one optional
sign, then a nonempty run of decimal digits; anything else raises
ValueError, modelled as none. -/
def pyIntParse (s : List Char) : Option Int :=
  let t := (((s.dropWhile isPySpace).reverse.dropWhile isPySpace).reverse)
  match t with
  | '-' :: ds => (digitsVal ds).map (fun n => -(n : Int))
  | '+' :: ds => (digitsVal ds).map (fun n => (n : Int))
  | ds => (digitsVal ds).map (fun n => (n : Int))

/-! ## base64.b64decode, as CPython 2.7 binascii.a2b_base64 computes it -/

/-- The base64 alphabet table: the 6-bit value of an alphabet character,
none for every other character. -/
def b64val (c : Char) : Option Nat :=
  let n := c.toNat
  if 65 ≤ n ∧ n ≤ 90 then some (n - 65)
  else if 97 ≤ n ∧ n ≤ 122 then some (n - 71)
  else if 48 ≤ n ∧ n ≤ 57 then some (n + 4)
  else if n = 43 then some 62
  else if n = 47 then some 63
  else none

/-- binascii_find_valid: the first character from here on that the decode
table accepts, where the pad character counts as accepted. -/
def nextValidB64 : List Char → Option Char
  | [] => none
  | c :: rest =>
      if c.toNat ≤ 127 ∧ (c = '=' ∨ (b64val c).isSome) then some c
      else nextValidB64 rest

/-- The decode loop of binascii.a2b_base64, CPython 2.7.  Characters above
127 and every character outside the table are skipped, not rejected.  A
pad character is skipped too unless at least two data characters of the
current quad were seen and, at exactly two, the next accepted character is
another pad; an honoured pad ends the decode successfully.  At the end of
input, leftover bits mean the Incorrect padding error (none). -/
def a2bLoop : List Char → Nat → Nat → Nat → List Nat → Option (List Nat)
  | [], _, _, leftbits, acc => if leftbits ≠ 0 then none else some acc
  | c :: rest, quadPos, leftchar, leftbits, acc =>
      if 127 < c.toNat ∨ c.toNat = 13 ∨ c.toNat = 10 ∨ c.toNat = 32 then
        a2bLoop rest quadPos leftchar leftbits acc
      else if c.toNat = 61 then
        if quadPos < 2 ∨ (quadPos = 2 ∧ nextValidB64 rest ≠ some '=') then
          a2bLoop rest quadPos leftchar leftbits acc
        else some acc
      else
        match b64val c with
        | none => a2bLoop rest quadPos leftchar leftbits acc
        | some v =>
            let quadPos1 := (quadPos + 1) % 4
            let leftchar1 := leftchar * 64 + v
            let leftbits1 := leftbits + 6
            if 8 ≤ leftbits1 then
              a2bLoop rest quadPos1 (leftchar1 % 2 ^ (leftbits1 - 8))
                (leftbits1 - 8) (acc ++ [leftchar1 / 2 ^ (leftbits1 - 8) % 256])
            else a2bLoop rest quadPos1 leftchar1 leftbits1 acc

/-- base64.b64decode of Python 2: run the binascii loop from an empty
quad; none models the binascii.Error the base64 module re-raises as
TypeError. -/
def b64decode (s : List Char) : Option (List Nat) :=
  a2bLoop s 0 0 0 []

/-- Alphabet membership used by the strict validity notion below. -/
def isB64Alpha (c : Char) : Bool := (b64val c).isSome

/-- Modelled from the spec side for comparison: a payload is valid base64
when it is a sequence of four-character groups over the base64 alphabet,
the last group alone allowed to end in one or two pad characters. -/
def specValidBase64 : List Char → Bool
  | [] => true
  | a :: b :: c :: d :: rest =>
      if rest = [] then
        isB64Alpha a && isB64Alpha b &&
          ((isB64Alpha c && isB64Alpha d) ||
           (isB64Alpha c && d == '=') ||
           (c == '=' && d == '='))
      else if isB64Alpha a && isB64Alpha b && isB64Alpha c && isB64Alpha d then
        specValidBase64 rest
      else false
  | _ => false

/-! ## Errors raised by the source

Python 2 raises concrete exception classes; the constructors record where
the exception comes from.  ioFileMissing and ioNotGzipped are both IOError
in Python (open on a missing path, and a gzip read on data that is not
gzip).  keyError / valueError come from dictionary access and int().
s3SizeError is the S3ObjectSizeError class of the source.  binasciiError
is the binascii.Error that base64.b64decode turns into TypeError. -/

inductive PyErr where
  | ioFileMissing
  | ioNotGzipped
  | keyError
  | valueError
  | s3SizeError
  | binasciiError
deriving DecidableEq, Repr

/-! ## File system model -/

/-- The file system visible to the process: a partial map from paths to
byte contents. -/
def PyFS : Type := List Char → Option (List Char)

/-- Point update of the file system. -/
def fsUpdate (fs : PyFS) (p : List Char) (v : Option (List Char)) : PyFS :=
  fun q => if q = p then v else fs q

/-- A file system holding exactly one file. -/
def singleFS (p c : List Char) : PyFS :=
  fun q => if q = p then some c else none

/-- The cleanup sub-protocol of read_s3_file after a completed loop: open
the path in mode w (truncate to an empty file), then os.remove it.  The
subsequent os.path.exists check only logs and changes nothing. -/
def cleanupFS (fs : PyFS) (path : List Char) : PyFS :=
  fsUpdate (fsUpdate fs path (some [])) path none

/-! ## The read_s3_file generator -/

/-- The enumerated, rstripped lines the generator body yields for the byte
content it iterates over: enumerate starts at 0 and each raw line is
rstripped. -/
def readLines (d : List Char) : List (Nat × List Char) :=
  (pySplitLines d).enum.map (fun p => (p.1, pyRstrip p.2))

/-- State of one read_s3_file generator object: not yet started (the body
of a Python generator only runs at the first next call), suspended at a
yield with the remaining lines still to produce, or terminated. -/
inductive GenState where
  | created (path : List Char)
  | running (path : List Char) (pending : List (Nat × List Char))
  | finished
deriving DecidableEq, Repr

/-- What one next call on the generator produces. -/
inductive NextRes where
  | yielded (i : Nat × List Char)
  | stopped
  | raised (e : PyErr)
deriving DecidableEq, Repr

/-- The extension string the source compares against. -/
def gzExtension : List Char := ".gz".toList

/-- First yield after the body reached the loop: either the loop is empty,
in which case the code after the loop (the cleanup sub-protocol) runs at
once and the generator returns, or the first line is yielded. -/
def read_s3_file_emit (path : List Char) (l : List (Nat × List Char))
    (fs : PyFS) : NextRes × GenState × PyFS :=
  match l with
  | [] => (.stopped, .finished, cleanupFS fs path)
  | i :: rest => (.yielded i, .running path rest, fs)

/-- One next call on a read_s3_file generator, translated from the source.
The gz argument is the gzip decompression capability of the gzip module:
none models data that is not valid gzip, in which case the first read
raises IOError.  On the first call the body runs os.path.splitext, opens
the file (IOError when the path does not exist), and enters the loop.
Each later call yields the next enumerated rstripped line.  When the loop
ends the cleanup sub-protocol runs and the generator stops.  No code of
the body is guarded by try/finally, so an exception terminates the
generator with the file system untouched.  A next call on a terminated
Python generator raises StopIteration, which a for loop reads as a normal
end; it is modelled as stopped. -/
def read_s3_file_next (gz : List Char → Option (List Char)) :
    GenState → PyFS → NextRes × GenState × PyFS
  | .created path, fs =>
      match fs path with
      | none => (.raised .ioFileMissing, .finished, fs)
      | some content =>
          if (splitext path).2 = gzExtension then
            match gz content with
            | none => (.raised .ioNotGzipped, .finished, fs)
            | some data => read_s3_file_emit path (readLines data) fs
          else read_s3_file_emit path (readLines content) fs
  | .running path pending, fs =>
      match pending with
      | [] => (.stopped, .finished, cleanupFS fs path)
      | i :: rest => (.yielded i, .running path rest, fs)
  | .finished, fs => (.stopped, .finished, fs)

/-- Closing a read_s3_file generator before exhaustion (early abandonment
or garbage collection): GeneratorExit is raised at the suspended yield;
the body catches nothing, so the generator just terminates and no code of
it runs again.  The file system is untouched. -/
def read_s3_file_close : GenState → PyFS → GenState × PyFS :=
  fun _ fs => (.finished, fs)

/-- Outcome of driving a generator with a for loop until it stops or
raises: the yielded items in order, the escaped exception if any, and the
generator state and file system afterwards. -/
structure RunOut where
  items : List (Nat × List Char)
  err : Option PyErr
  state : GenState
  fs : PyFS

/-- Drive the generator with repeated next calls until it stops or raises
(a for loop over it).  The fuel only serves termination; every theorem
below supplies enough of it. -/
def consumeRun (gz : List Char → Option (List Char)) :
    Nat → GenState → PyFS → RunOut
  | 0, s, fs => ⟨[], none, s, fs⟩
  | Nat.succ n, s, fs =>
      match read_s3_file_next gz s fs with
      | (.yielded i, s1, fs1) =>
          let r := consumeRun gz n s1 fs1
          ⟨i :: r.items, r.err, r.state, r.fs⟩
      | (.stopped, s1, fs1) => ⟨[], none, s1, fs1⟩
      | (.raised e, s1, fs1) => ⟨[], some e, s1, fs1⟩

/-- A full for loop over a fresh read_s3_file generator on path. -/
def read_s3_file_run (gz : List Char → Option (List Char)) (fs : PyFS)
    (path : List Char) (fuel : Nat) : RunOut :=
  consumeRun gz fuel (.created path) fs

/-- The decompressed byte stream the generator iterates over, when it can
be obtained: the file content for a plaintext path, its gzip decompression
for a path with extension .gz.  none means the generator raises before
yielding anything. -/
def producedData (gz : List Char → Option (List Char)) (fs : PyFS)
    (path : List Char) : Option (List Char) :=
  match fs path with
  | none => none
  | some content =>
      if (splitext path).2 = gzExtension then gz content else some content

/-! ## The S3 object download -/

/-- mkstemp with a suffix: the chosen directory, the fixed tmp name
start, a unique random component, then the suffix. -/
def mkstempPath (dir rand suffix : List Char) : List Char :=
  dir ++ '/' :: 't' :: 'm' :: 'p' :: (rand ++ suffix)

/-- Result of _download_s3_object: the outcome, and how many network
transfers (client.download_fileobj calls) were made. -/
structure DownloadOut where
  result : Except PyErr (List Char)
  netCalls : Nat
deriving Repr

/-- StreamPreParsers._download_s3_object.  size / 1024 / 1024 in Python 2
is floor division, Int.fdiv.  When the quotient exceeds 128 the
S3ObjectSizeError is raised before the boto3 client is even constructed,
so no network call happens.  Otherwise the object is fetched (one network
call) into a temp path built by tempfile.mkstemp with suffix
key.replace slash dash; dir and rand stand for the temp directory and the
unique random component mkstemp generates. -/
def download_s3_object (region bucket key : List Char) (size : Int)
    (dir rand : List Char) : DownloadOut :=
  if 128 < (size.fdiv 1024).fdiv 1024 then ⟨.error .s3SizeError, 0⟩
  else ⟨.ok (mkstempPath dir rand (pyReplace key '/' '-')), 1⟩

/-! ## Envelope adapters -/

/-- The fields of a Kinesis event record the source touches. -/
structure KinesisRecordModel where
  eventID : List Char
  eventSourceARN : List Char
  kinesisData : List Char

/-- StreamPreParsers.pre_parse_kinesis: return
base64.b64decode(raw_record kinesis data); a binascii.Error (re-raised by
the base64 module as TypeError) surfaces when the loop reports incorrect
padding. -/
def pre_parse_kinesis (r : KinesisRecordModel) : Except PyErr (List Nat) :=
  match b64decode r.kinesisData with
  | some bs => .ok bs
  | none => .error .binasciiError

/-- The fields of an S3 event record the source touches; none models a
missing dictionary key (KeyError on access).  The size field carries the
raw text handed to int(). -/
structure S3RecordModel where
  awsRegion : Option (List Char)
  bucketName : Option (List Char)
  objectKey : Option (List Char)
  objectSize : Option (List Char)

/-- The normalized remote object reference pre_parse_s3 builds. -/
structure S3Ref where
  region : List Char
  bucket : List Char
  key : List Char
deriving DecidableEq, Repr

/-- StreamPreParsers.pre_parse_s3, up to the download call: read region,
URL-unquote bucket name and object key, parse the size with int().  A
missing field raises KeyError, an unparsable size raises ValueError. -/
def pre_parse_s3 (r : S3RecordModel) : Except PyErr (S3Ref × Int) :=
  match r.awsRegion, r.bucketName, r.objectKey, r.objectSize with
  | some reg, some b, some k, some sz =>
      match pyIntParse sz with
      | some n => .ok (⟨reg, pyUnquote b, pyUnquote k⟩, n)
      | none => .error .valueError
  | _, _, _, _ => .error .keyError

/-! ## Generator drain lemmas -/

theorem cleanupFS_self (fs : PyFS) (path : List Char) :
    cleanupFS fs path path = none := by
  simp [cleanupFS, fsUpdate]

theorem consumeRun_running (gz : List Char → Option (List Char))
    (path : List Char) :
    ∀ (l : List (Nat × List Char)) (fs : PyFS) (fuel : Nat),
      l.length + 1 ≤ fuel →
      consumeRun gz fuel (.running path l) fs =
        ⟨l, none, .finished, cleanupFS fs path⟩ := by
  intro l
  induction l with
  | nil =>
      intro fs fuel h
      cases fuel with
      | zero => exact absurd h (by omega)
      | succ n => simp [consumeRun, read_s3_file_next]
  | cons i rest ih =>
      intro fs fuel h
      cases fuel with
      | zero => exact absurd h (by omega)
      | succ n =>
          have hn : rest.length + 1 ≤ n := by
            simp [List.length] at h; omega
          simp [consumeRun, read_s3_file_next, ih fs n hn]

/-- A run over a generator whose data materializes: every line is
produced, no error escapes, and the cleanup sub-protocol ran. -/
theorem run_of_producedData_some (gz : List Char → Option (List Char))
    (fs : PyFS) (path d : List Char) (fuel : Nat)
    (hd : producedData gz fs path = some d)
    (hf : (readLines d).length + 2 ≤ fuel) :
    read_s3_file_run gz fs path fuel =
      ⟨readLines d, none, .finished, cleanupFS fs path⟩ := by
  cases fuel with
  | zero => exact absurd hf (by omega)
  | succ n =>
      have hn : (readLines d).length + 1 ≤ n := by omega
      cases hp : fs path with
      | none => simp [producedData, hp] at hd
      | some content =>
          by_cases hx : (splitext path).2 = gzExtension
          · cases hg : gz content with
            | none => simp [producedData, hp, hx, hg] at hd
            | some data =>
                have hdd : data = d := by
                  simp [producedData, hp, hx, hg] at hd; exact hd
                subst hdd
                cases hr : readLines data with
                | nil =>
                    simp [read_s3_file_run, consumeRun, read_s3_file_next,
                      hp, hx, hg, read_s3_file_emit, hr]
                | cons i rest =>
                    rw [hr] at hn
                    simp [read_s3_file_run, consumeRun, read_s3_file_next,
                      hp, hx, hg, read_s3_file_emit, hr,
                      consumeRun_running gz path rest fs n (by simp at hn ⊢; omega)]
          · have hdd : content = d := by
              simp [producedData, hp, hx] at hd; exact hd
            subst hdd
            cases hr : readLines content with
            | nil =>
                simp [read_s3_file_run, consumeRun, read_s3_file_next,
                  hp, hx, read_s3_file_emit, hr]
            | cons i rest =>
                rw [hr] at hn
                simp [read_s3_file_run, consumeRun, read_s3_file_next,
                  hp, hx, read_s3_file_emit, hr,
                  consumeRun_running gz path rest fs n (by simp at hn ⊢; omega)]

/-- A run over a generator whose data cannot be obtained: the IOError of
the open or of the gzip read escapes, nothing is yielded, and the file
system is untouched, the temp file included. -/
theorem run_of_producedData_none (gz : List Char → Option (List Char))
    (fs : PyFS) (path : List Char) (fuel : Nat)
    (hd : producedData gz fs path = none) (hf : 1 ≤ fuel) :
    ∃ e, read_s3_file_run gz fs path fuel = ⟨[], some e, .finished, fs⟩ := by
  cases fuel with
  | zero => exact absurd hf (by omega)
  | succ n =>
      cases hp : fs path with
      | none =>
          exact ⟨.ioFileMissing,
            by simp [read_s3_file_run, consumeRun, read_s3_file_next, hp]⟩
      | some content =>
          by_cases hx : (splitext path).2 = gzExtension
          · cases hg : gz content with
            | none =>
                exact ⟨.ioNotGzipped,
                  by simp [read_s3_file_run, consumeRun, read_s3_file_next,
                    hp, hx, hg]⟩
            | some data => simp [producedData, hp, hx, hg] at hd
          · simp [producedData, hp, hx] at hd

/-! ## Claim C1 -/

/-- C1 counterexample: on an error exit path of the Line Stream Producer
(a .gz file whose bytes are not gzip data), driving the sequence raises,
yet the local temporary file still exists afterwards: deletion does not
happen on every exit path, contrary to the claim. -/
theorem C1_error_path_file_survives :
    (read_s3_file_run (fun _ => none) (singleFS "x.gz".toList "junk".toList)
        "x.gz".toList 6).err = some .ioNotGzipped ∧
    (read_s3_file_run (fun _ => none) (singleFS "x.gz".toList "junk".toList)
        "x.gz".toList 6).fs "x.gz".toList = some "junk".toList := by
  constructor <;> decide

/-- C1 amended: the temporary file no longer exists once the line sequence
has been fully consumed to a normal end; but when line production raises,
nothing is deleted (the file system is untouched), and closing the
generator early (early abandonment) deletes nothing either, because no
cleanup code of read_s3_file is guarded by try/finally. -/
theorem C1_deletion_only_on_full_consumption
    (gz : List Char → Option (List Char)) (fs : PyFS) (path : List Char)
    (fuel : Nat) (hf : 1 ≤ fuel) :
    (∀ d, producedData gz fs path = some d →
      (readLines d).length + 2 ≤ fuel →
      (read_s3_file_run gz fs path fuel).err = none ∧
      (read_s3_file_run gz fs path fuel).fs path = none) ∧
    (producedData gz fs path = none →
      (read_s3_file_run gz fs path fuel).err.isSome = true ∧
      ∀ q, (read_s3_file_run gz fs path fuel).fs q = fs q) ∧
    (∀ s, (read_s3_file_close s fs).2 = fs) := by
  refine ⟨?_, ?_, fun s => rfl⟩
  · intro d hd hfu
    rw [run_of_producedData_some gz fs path d fuel hd hfu]
    exact ⟨rfl, cleanupFS_self fs path⟩
  · intro hd
    obtain ⟨e, he⟩ := run_of_producedData_none gz fs path fuel hd hf
    rw [he]
    exact ⟨rfl, fun q => rfl⟩

/-- C1 witness: the amended theorem applied to a one-line plaintext file. -/
theorem C1_deletion_witness :
    (read_s3_file_run (fun _ => none)
        (singleFS "f.txt".toList "a\n".toList) "f.txt".toList 6).err = none ∧
    (read_s3_file_run (fun _ => none)
        (singleFS "f.txt".toList "a\n".toList) "f.txt".toList 6).fs
      "f.txt".toList = none :=
  (C1_deletion_only_on_full_consumption (fun _ => none)
      (singleFS "f.txt".toList "a\n".toList) "f.txt".toList 6 (by decide)).1
    "a\n".toList (by decide) (by decide)

/-! ## Claim C2 -/

/-- C2: the size 134217729 exceeds the 128 MiB ceiling, yet the
floor-division check size / 1024 / 1024 > 128 of _download_s3_object does
not raise for it: the download proceeds with one network transfer,
contradicting the claim and the docstring of the function (sizes must be
at most 128MB).  The raise only starts at 129 MiB = 135266304. -/
theorem C2_floor_division_lets_oversized_download :
    128 * 1024 * 1024 < (134217729 : Int) ∧
    (download_s3_object "r".toList "b".toList "k".toList 134217729
        "/tmp".toList "abc12345".toList).result =
      .ok (mkstempPath "/tmp".toList "abc12345".toList "k".toList) ∧
    (download_s3_object "r".toList "b".toList "k".toList 134217729
        "/tmp".toList "abc12345".toList).netCalls = 1 ∧
    (download_s3_object "r".toList "b".toList "k".toList 135266303
        "/tmp".toList "abc12345".toList).netCalls = 1 ∧
    (download_s3_object "r".toList "b".toList "k".toList 135266304
        "/tmp".toList "abc12345".toList).result = .error .s3SizeError ∧
    (download_s3_object "r".toList "b".toList "k".toList 135266304
        "/tmp".toList "abc12345".toList).netCalls = 0 :=
  ⟨by decide, by rfl, by decide, by decide, by rfl, by decide⟩

/-! ## Claim C3 -/

/-- C3 counterexample: consume the two-line sequence completely, then
iterate the same generator object a second time: it yields no items and
raises no error at all, instead of failing with the claimed
ResourceAlreadyConsumedError (no such failure exists in the code). -/
theorem C3_second_iteration_silently_empty :
    (read_s3_file_run (fun _ => none)
        (singleFS "f.txt".toList "a\nb\n".toList) "f.txt".toList 6).err
      = none ∧
    (read_s3_file_run (fun _ => none)
        (singleFS "f.txt".toList "a\nb\n".toList) "f.txt".toList 6).state
      = .finished ∧
    (consumeRun (fun _ => none) 6
        (read_s3_file_run (fun _ => none)
          (singleFS "f.txt".toList "a\nb\n".toList) "f.txt".toList 6).state
        (read_s3_file_run (fun _ => none)
          (singleFS "f.txt".toList "a\nb\n".toList) "f.txt".toList 6).fs).items
      = [] ∧
    (consumeRun (fun _ => none) 6
        (read_s3_file_run (fun _ => none)
          (singleFS "f.txt".toList "a\nb\n".toList) "f.txt".toList 6).state
        (read_s3_file_run (fun _ => none)
          (singleFS "f.txt".toList "a\nb\n".toList) "f.txt".toList 6).fs).err
      = none := by
  refine ⟨by decide, by decide, by decide, by decide⟩

/-- C3 amended: after full consumption, a second for loop over the same
generator object yields nothing and raises nothing (the exhausted Python
generator only signals StopIteration, a normal end); and because the
backing file is gone, a freshly created generator over the same path
raises the IOError of a failed open on its first advance, not any
ResourceAlreadyConsumedError. -/
theorem C3_consumed_sequence_behavior
    (gz : List Char → Option (List Char)) (fs : PyFS) (path d : List Char)
    (fuel fuel2 : Nat) (hd : producedData gz fs path = some d)
    (hf : (readLines d).length + 2 ≤ fuel) (hf2 : 1 ≤ fuel2) :
    (consumeRun gz fuel2 (read_s3_file_run gz fs path fuel).state
        (read_s3_file_run gz fs path fuel).fs).items = [] ∧
    (consumeRun gz fuel2 (read_s3_file_run gz fs path fuel).state
        (read_s3_file_run gz fs path fuel).fs).err = none ∧
    (read_s3_file_next gz (.created path)
        (read_s3_file_run gz fs path fuel).fs).1
      = .raised .ioFileMissing := by
  rw [run_of_producedData_some gz fs path d fuel hd hf]
  cases fuel2 with
  | zero => exact absurd hf2 (by omega)
  | succ n =>
      refine ⟨by simp [consumeRun, read_s3_file_next], by simp [consumeRun, read_s3_file_next], ?_⟩
      simp [read_s3_file_next, cleanupFS_self fs path]

/-- C3 witness: the amended theorem applied to a one-line plaintext file. -/
theorem C3_consumed_witness :
    (consumeRun (fun _ => none) 4
        (read_s3_file_run (fun _ => none)
          (singleFS "g.txt".toList "a\n".toList) "g.txt".toList 5).state
        (read_s3_file_run (fun _ => none)
          (singleFS "g.txt".toList "a\n".toList) "g.txt".toList 5).fs).items
      = [] ∧
    (consumeRun (fun _ => none) 4
        (read_s3_file_run (fun _ => none)
          (singleFS "g.txt".toList "a\n".toList) "g.txt".toList 5).state
        (read_s3_file_run (fun _ => none)
          (singleFS "g.txt".toList "a\n".toList) "g.txt".toList 5).fs).err
      = none ∧
    (read_s3_file_next (fun _ => none) (.created "g.txt".toList)
        (read_s3_file_run (fun _ => none)
          (singleFS "g.txt".toList "a\n".toList) "g.txt".toList 5).fs).1
      = .raised .ioFileMissing :=
  C3_consumed_sequence_behavior (fun _ => none)
    (singleFS "g.txt".toList "a\n".toList) "g.txt".toList "a\n".toList 5 4
    (by decide) (by decide) (by decide)

/-! ## Claim C4 -/

/-- C4 counterexample: a .gz object whose contents are not gzip data: the
error does surface during line production, but the cleanup sub-protocol
does not execute before it propagates and the temporary file is still
present afterwards, contrary to the claim. -/
theorem C4_corrupt_gzip_file_not_removed :
    (read_s3_file_run (fun _ => none)
        (singleFS "y.gz".toList "notgzip".toList) "y.gz".toList 6).err
      = some .ioNotGzipped ∧
    (read_s3_file_run (fun _ => none)
        (singleFS "y.gz".toList "notgzip".toList) "y.gz".toList 6).items
      = [] ∧
    (read_s3_file_run (fun _ => none)
        (singleFS "y.gz".toList "notgzip".toList) "y.gz".toList 6).fs
      "y.gz".toList = some "notgzip".toList := by
  refine ⟨by decide, by decide, by decide⟩

/-- C4 amended: for every materialized .gz object whose contents are not
valid gzip data, consuming the line sequence surfaces the gzip IOError
(the CorruptObjectError of the spec) to the consumer, but the cleanup
sub-protocol does not run: the whole file system, the temporary file
included, is exactly as before. -/
theorem C4_corrupt_gzip_error_no_cleanup
    (gz : List Char → Option (List Char)) (fs : PyFS)
    (path content : List Char) (fuel : Nat) (hp : fs path = some content)
    (hx : (splitext path).2 = gzExtension) (hg : gz content = none)
    (hf : 1 ≤ fuel) :
    (read_s3_file_run gz fs path fuel).err = some .ioNotGzipped ∧
    (read_s3_file_run gz fs path fuel).items = [] ∧
    ∀ q, (read_s3_file_run gz fs path fuel).fs q = fs q := by
  cases fuel with
  | zero => exact absurd hf (by omega)
  | succ n =>
      refine ⟨?_, ?_, fun q => ?_⟩ <;>
        simp [read_s3_file_run, consumeRun, read_s3_file_next, hp, hx, hg]

/-- C4 witness: the amended theorem applied to a concrete corrupt object. -/
theorem C4_corrupt_gzip_witness :
    (read_s3_file_run (fun _ => none)
        (singleFS "z.gz".toList "bad".toList) "z.gz".toList 3).err
      = some .ioNotGzipped ∧
    (read_s3_file_run (fun _ => none)
        (singleFS "z.gz".toList "bad".toList) "z.gz".toList 3).items = [] ∧
    ∀ q, (read_s3_file_run (fun _ => none)
        (singleFS "z.gz".toList "bad".toList) "z.gz".toList 3).fs q
      = singleFS "z.gz".toList "bad".toList q :=
  C4_corrupt_gzip_error_no_cleanup (fun _ => none)
    (singleFS "z.gz".toList "bad".toList) "z.gz".toList "bad".toList 3
    (by decide) (by decide) rfl (by decide)

/-! ## Properties of pyRstrip and pySplitLines -/

/-- What str.rstrip removes is exactly a (possibly empty) run of trailing
whitespace characters. -/
theorem pyRstrip_decomposition (s : List Char) :
    ∃ t, s = pyRstrip s ++ t ∧ ∀ c ∈ t, isPySpace c = true := by
  refine ⟨(s.reverse.takeWhile isPySpace).reverse, ?_, ?_⟩
  · calc s = s.reverse.reverse := (List.reverse_reverse s).symm
    _ = (s.reverse.takeWhile isPySpace ++ s.reverse.dropWhile isPySpace).reverse := by
        rw [List.takeWhile_append_dropWhile]
    _ = pyRstrip s ++ (s.reverse.takeWhile isPySpace).reverse := by
        rw [List.reverse_append]; rfl
  · intro c hc
    exact List.mem_takeWhile_imp (List.mem_reverse.mp hc)

theorem head?_dropWhile_false {p : Char → Bool} :
    ∀ (l : List Char) (c : Char), (l.dropWhile p).head? = some c → p c = false := by
  intro l
  induction l with
  | nil => intro c h; simp [List.dropWhile] at h
  | cons a rest ih =>
      intro c h
      by_cases hp : p a
      · rw [List.dropWhile_cons_of_pos hp] at h
        exact ih c h
      · rw [List.dropWhile_cons_of_neg hp] at h
        simp at h
        subst h
        simpa using hp

/-- The last character str.rstrip keeps is never whitespace. -/
theorem pyRstrip_getLast_not_space (s : List Char) (c : Char)
    (h : (pyRstrip s).getLast? = some c) : isPySpace c = false := by
  rw [pyRstrip, List.getLast?_eq_head?_reverse, List.reverse_reverse] at h
  exact head?_dropWhile_false s.reverse c h

/-- Indices of the produced items are 0, 1, ... line count - 1. -/
theorem readLines_map_fst (d : List Char) :
    (readLines d).map Prod.fst = List.range (pySplitLines d).length := by
  rw [readLines, List.map_map]
  have : (Prod.fst ∘ fun p : Nat × List Char => (p.1, pyRstrip p.2)) = Prod.fst := by
    funext p; rfl
  rw [this]
  exact List.enum_map_fst _

/-! ## Claim C5 -/

/-- C5 counterexample: the plaintext line is the two bytes a and space
followed by the newline record separator; the claim demands that only the
record separator is stripped, keeping a-space, but the produced item is
the single byte a: rstrip also removed the trailing space, which is not a
record separator. -/
theorem C5_trailing_space_also_stripped :
    pySplitLines "a \n".toList = ["a \n".toList] ∧
    (read_s3_file_run (fun _ => none)
        (singleFS "h.txt".toList "a \n".toList) "h.txt".toList 5).items
      = [(0, "a".toList)] ∧
    (read_s3_file_run (fun _ => none)
        (singleFS "h.txt".toList "a \n".toList) "h.txt".toList 5).items
      ≠ [(0, "a ".toList)] := by
  refine ⟨by decide, by decide, by decide⟩

/-- C5 amended: each produced line is the raw line with its whole run of
trailing Python whitespace (space, tab, newline, carriage return, vertical
tab, form feed) stripped, so trailing blanks are lost too, not only
newline/record separators; everything before that trailing run, embedded
control characters included, is preserved verbatim, and the indices are
0, 1, 2, ... in order. -/
theorem C5_lines_are_rstripped_with_indices
    (gz : List Char → Option (List Char)) (fs : PyFS)
    (path content : List Char) (fuel : Nat)
    (hp : fs path = some content)
    (hx : (splitext path).2 ≠ gzExtension)
    (hf : (readLines content).length + 2 ≤ fuel) :
    (read_s3_file_run gz fs path fuel).items = readLines content ∧
    (read_s3_file_run gz fs path fuel).err = none ∧
    (read_s3_file_run gz fs path fuel).items.map Prod.fst
      = List.range (pySplitLines content).length ∧
    (∀ s : List Char, ∃ t, s = pyRstrip s ++ t ∧ ∀ c ∈ t, isPySpace c = true) ∧
    (∀ (s : List Char) (c : Char),
      (pyRstrip s).getLast? = some c → isPySpace c = false) := by
  have hd : producedData gz fs path = some content := by
    simp [producedData, hp, hx]
  rw [run_of_producedData_some gz fs path content fuel hd hf]
  exact ⟨rfl, rfl, readLines_map_fst content, pyRstrip_decomposition,
    pyRstrip_getLast_not_space⟩

/-- C5 witness: the amended theorem applied to a file with an embedded
control character and a trailing tab. -/
theorem C5_rstrip_witness :
    (read_s3_file_run (fun _ => none)
        (singleFS "k.txt".toList "a\x01b\t\n".toList) "k.txt".toList 5).items
      = readLines "a\x01b\t\n".toList ∧
    (read_s3_file_run (fun _ => none)
        (singleFS "k.txt".toList "a\x01b\t\n".toList) "k.txt".toList 5).err
      = none :=
  ⟨(C5_lines_are_rstripped_with_indices (fun _ => none)
      (singleFS "k.txt".toList "a\x01b\t\n".toList) "k.txt".toList
      "a\x01b\t\n".toList 5 (by decide) (by decide) (by decide)).1,
   (C5_lines_are_rstripped_with_indices (fun _ => none)
      (singleFS "k.txt".toList "a\x01b\t\n".toList) "k.txt".toList
      "a\x01b\t\n".toList 5 (by decide) (by decide) (by decide)).2.1⟩

/-! ## Claim C6 -/

/-- Encoding of a list of logical lines as a newline-terminated text. -/
def encodeLines (lines : List (List Char)) : List Char :=
  (lines.map (fun l => l ++ ['\n'])).flatten

/-- Modelled from the spec side for comparison: a produced line with only
its trailing newline / carriage-return record separators removed (what the
claim asserts the producer yields). -/
def stripRecordSeps (l : List Char) : List Char :=
  (l.reverse.dropWhile (fun c => c = '\n' || c = '\r')).reverse

/-- Modelled from the spec side for comparison: the lines of the input
split by line, record separators stripped. -/
def splitByLineSpec (d : List Char) : List (List Char) :=
  (pySplitLines d).map stripRecordSeps

theorem pySplitLinesAux_line (l : List Char) (hl : '\n' ∉ l) :
    ∀ (cur rest : List Char),
      pySplitLinesAux cur (l ++ '\n' :: rest)
        = (cur.reverse ++ l ++ ['\n']) :: pySplitLinesAux [] rest := by
  induction l with
  | nil => intro cur rest; simp [pySplitLinesAux]
  | cons c l ih =>
      intro cur rest
      have hc : ¬(c = '\n') := fun h => hl (by simp [h])
      have hl2 : '\n' ∉ l := fun h => hl (by simp [h])
      calc pySplitLinesAux cur ((c :: l) ++ '\n' :: rest)
          = pySplitLinesAux (c :: cur) (l ++ '\n' :: rest) := by
            simp [pySplitLinesAux, hc]
        _ = ((c :: cur).reverse ++ l ++ ['\n']) :: pySplitLinesAux [] rest :=
            ih hl2 (c :: cur) rest
        _ = (cur.reverse ++ (c :: l) ++ ['\n']) :: pySplitLinesAux [] rest := by
            simp

/-- Splitting a newline-joined text recovers the newline-terminated
lines, provided no line contains a newline itself. -/
theorem pySplitLines_encodeLines (lines : List (List Char))
    (h : ∀ l ∈ lines, '\n' ∉ l) :
    pySplitLines (encodeLines lines) = lines.map (fun l => l ++ ['\n']) := by
  induction lines with
  | nil => rfl
  | cons l rest ih =>
      have h1 : '\n' ∉ l := h l (by simp)
      have h2 : ∀ m ∈ rest, '\n' ∉ m := fun m hm => h m (by simp [hm])
      have : encodeLines (l :: rest) = l ++ '\n' :: encodeLines rest := by
        simp [encodeLines]
      rw [this, pySplitLines, pySplitLinesAux_line l h1 [] (encodeLines rest)]
      simp [List.map_cons]
      exact ih h2

/-- rstrip undoes the newline termination when the line does not itself
end in whitespace. -/
theorem pyRstrip_append_newline (l : List Char)
    (h : ∀ c, l.getLast? = some c → isPySpace c = false) :
    pyRstrip (l ++ ['\n']) = l := by
  rw [pyRstrip, List.reverse_append]
  have h1 : (['\n'].reverse ++ l.reverse).dropWhile isPySpace
      = l.reverse.dropWhile isPySpace := by
    simp [List.dropWhile, isPySpace]
  rw [h1]
  have h2 : l.reverse.dropWhile isPySpace = l.reverse := by
    cases hrev : l.reverse with
    | nil => rfl
    | cons c t =>
        have hlast : l.getLast? = some c := by
          rw [List.getLast?_eq_head?_reverse, hrev]; rfl
        have := h c hlast
        simp [List.dropWhile, this]
  rw [h2, List.reverse_reverse]

/-- Producing and rstripping the encoded lines recovers them with
contiguous indices, starting anywhere. -/
theorem readLines_encodeLines_from (lines : List (List Char))
    (hn : ∀ l ∈ lines, '\n' ∉ l)
    (hw : ∀ l ∈ lines, ∀ c, l.getLast? = some c → isPySpace c = false) :
    ∀ k, ((lines.map (fun l => l ++ ['\n'])).enumFrom k).map
        (fun p => (p.1, pyRstrip p.2)) = lines.enumFrom k := by
  induction lines with
  | nil => intro k; rfl
  | cons l rest ih =>
      intro k
      have h1 : pyRstrip (l ++ ['\n']) = l :=
        pyRstrip_append_newline l (hw l (by simp))
      have ihr := ih (fun m hm => hn m (by simp [hm]))
        (fun m hm => hw m (by simp [hm])) (k + 1)
      simp only [List.map_cons, List.enumFrom, List.map]
      rw [h1, ihr]

/-- The full producer output on an encoded text. -/
theorem readLines_encodeLines (lines : List (List Char))
    (hn : ∀ l ∈ lines, '\n' ∉ l)
    (hw : ∀ l ∈ lines, ∀ c, l.getLast? = some c → isPySpace c = false) :
    readLines (encodeLines lines) = lines.enum := by
  rw [readLines, pySplitLines_encodeLines lines hn]
  exact readLines_encodeLines_from lines hn hw 0

/-- C6 counterexample: the two-line object a-space, b: the original input
split by line is the pair of lines a-space and b, but consuming the
produced sequence yields a and b: the first line lost its trailing space,
so the round trip does not return the split-by-line input. -/
theorem C6_trailing_space_breaks_roundtrip :
    splitByLineSpec "a \nb\n".toList = ["a ".toList, "b".toList] ∧
    (read_s3_file_run (fun _ => none)
        (singleFS "m.txt".toList "a \nb\n".toList) "m.txt".toList 6).items
      = [(0, "a".toList), (1, "b".toList)] ∧
    (read_s3_file_run (fun _ => none)
        (singleFS "m.txt".toList "a \nb\n".toList) "m.txt".toList 6).items
      ≠ (splitByLineSpec "a \nb\n".toList).enum := by
  refine ⟨by decide, by decide, by decide⟩

/-- C6 amended: the round trip holds for every multi-line object none of
whose lines contains a newline or ends in a whitespace character: the
produced sequence is exactly the original lines with contiguous indices
0..n-1, both for a plaintext path and for a gzip-compressed object under a
path with the .gz extension. -/
theorem C6_roundtrip_whitespace_clean
    (gz : List Char → Option (List Char)) (fs : PyFS)
    (lines : List (List Char)) (fuel : Nat)
    (hn : ∀ l ∈ lines, '\n' ∉ l)
    (hw : ∀ l ∈ lines, ∀ c, l.getLast? = some c → isPySpace c = false)
    (hf : lines.length + 2 ≤ fuel) :
    (∀ path, (splitext path).2 ≠ gzExtension →
      fs path = some (encodeLines lines) →
      (read_s3_file_run gz fs path fuel).items = lines.enum ∧
      (read_s3_file_run gz fs path fuel).err = none ∧
      (read_s3_file_run gz fs path fuel).items.map Prod.fst
        = List.range lines.length) ∧
    (∀ path blob, (splitext path).2 = gzExtension →
      fs path = some blob → gz blob = some (encodeLines lines) →
      (read_s3_file_run gz fs path fuel).items = lines.enum ∧
      (read_s3_file_run gz fs path fuel).err = none ∧
      (read_s3_file_run gz fs path fuel).items.map Prod.fst
        = List.range lines.length) := by
  have hrl : readLines (encodeLines lines) = lines.enum :=
    readLines_encodeLines lines hn hw
  have hlen : (readLines (encodeLines lines)).length + 2 ≤ fuel := by
    rw [hrl, List.enum_length]; exact hf
  constructor
  · intro path hx hp
    have hd : producedData gz fs path = some (encodeLines lines) := by
      simp [producedData, hp, hx]
    rw [run_of_producedData_some gz fs path (encodeLines lines) fuel hd hlen]
    refine ⟨hrl, rfl, ?_⟩
    rw [hrl, List.enum_map_fst]
  · intro path blob hx hp hg
    have hd : producedData gz fs path = some (encodeLines lines) := by
      simp [producedData, hp, hx, hg]
    rw [run_of_producedData_some gz fs path (encodeLines lines) fuel hd hlen]
    refine ⟨hrl, rfl, ?_⟩
    rw [hrl, List.enum_map_fst]

/-- C6 witness: the amended theorem applied to the two lines a, b, once
plaintext and once behind a gzip blob under a .gz path. -/
theorem C6_roundtrip_witness :
    ((read_s3_file_run
        (fun c => if c = "BLOB".toList then some "a\nb\n".toList else none)
        (singleFS "n.txt".toList "a\nb\n".toList) "n.txt".toList 6).items
      = [("a".toList : List Char), "b".toList].enum) ∧
    ((read_s3_file_run
        (fun c => if c = "BLOB".toList then some "a\nb\n".toList else none)
        (singleFS "n.gz".toList "BLOB".toList) "n.gz".toList 6).items
      = [("a".toList : List Char), "b".toList].enum) :=
  ⟨((C6_roundtrip_whitespace_clean
      (fun c => if c = "BLOB".toList then some "a\nb\n".toList else none)
      (singleFS "n.txt".toList "a\nb\n".toList)
      ["a".toList, "b".toList] 6 (by decide) (by decide) (by decide)).1
      "n.txt".toList (by decide) (by decide)).1,
   ((C6_roundtrip_whitespace_clean
      (fun c => if c = "BLOB".toList then some "a\nb\n".toList else none)
      (singleFS "n.gz".toList "BLOB".toList)
      ["a".toList, "b".toList] 6 (by decide) (by decide) (by decide)).2
      "n.gz".toList "BLOB".toList (by decide) (by decide) (by decide)).1⟩

/-! ## Claim C7 -/

theorem b64val_char_facts (c : Char) (h : (b64val c).isSome = true) :
    ¬(127 < c.toNat ∨ c.toNat = 13 ∨ c.toNat = 10 ∨ c.toNat = 32) ∧
    ¬(c.toNat = 61) := by
  rw [b64val] at h
  split_ifs at h with h1 h2 h3 h4 h5
  · exact ⟨by omega, by omega⟩
  · exact ⟨by omega, by omega⟩
  · exact ⟨by omega, by omega⟩
  · exact ⟨by omega, by omega⟩
  · exact ⟨by omega, by omega⟩
  · simp at h

/-- One alphabet character advances the decode loop deterministically. -/
theorem a2bLoop_alpha_step (c : Char) (v : Nat) (hv : b64val c = some v)
    (rest : List Char) (quadPos leftchar leftbits : Nat) (acc : List Nat) :
    a2bLoop (c :: rest) quadPos leftchar leftbits acc =
      if 8 ≤ leftbits + 6 then
        a2bLoop rest ((quadPos + 1) % 4)
          ((leftchar * 64 + v) % 2 ^ (leftbits + 6 - 8)) (leftbits + 6 - 8)
          (acc ++ [(leftchar * 64 + v) / 2 ^ (leftbits + 6 - 8) % 256])
      else a2bLoop rest ((quadPos + 1) % 4) (leftchar * 64 + v)
        (leftbits + 6) acc := by
  have hs := b64val_char_facts c (by rw [hv]; rfl)
  rw [a2bLoop, if_neg hs.1, if_neg hs.2, hv]

/-- A pad met with two data characters of the quad seen and a second pad
next ends the decode successfully. -/
theorem a2bLoop_pad_close2 (lc : Nat) (acc : List Nat) :
    a2bLoop ['=', '='] 2 lc 4 acc = some acc := by
  rw [a2bLoop, if_neg (by decide), if_pos (by decide), if_neg (by decide)]

/-- A pad met with three data characters of the quad seen ends the decode
successfully. -/
theorem a2bLoop_pad_close3 (lc : Nat) (acc : List Nat) :
    a2bLoop ['='] 3 lc 2 acc = some acc := by
  rw [a2bLoop, if_neg (by decide), if_pos (by decide), if_neg (by decide)]

/-- Four alphabet characters consume one full quad, emit three bytes and
return the loop to an empty-quad state. -/
theorem a2bLoop_quad (a b c d : Char) (va vb vc vd : Nat)
    (hva : b64val a = some va) (hvb : b64val b = some vb)
    (hvc : b64val c = some vc) (hvd : b64val d = some vd)
    (rest : List Char) (acc : List Nat) :
    a2bLoop (a :: b :: c :: d :: rest) 0 0 0 acc
      = a2bLoop rest 0 0 0 (acc ++
          [(va * 64 + vb) / 16 % 256,
           ((va * 64 + vb) % 16 * 64 + vc) / 4 % 256,
           (((va * 64 + vb) % 16 * 64 + vc) % 4 * 64 + vd) % 256]) := by
  rw [a2bLoop_alpha_step a va hva, if_neg (by omega),
    a2bLoop_alpha_step b vb hvb, if_pos (by omega),
    a2bLoop_alpha_step c vc hvc, if_pos (by omega),
    a2bLoop_alpha_step d vd hvd, if_pos (by omega)]
  norm_num [Nat.mod_one]

/-- A quad closed by two pads decodes successfully. -/
theorem a2bLoop_two_pads (a b : Char) (va vb : Nat)
    (hva : b64val a = some va) (hvb : b64val b = some vb) (acc : List Nat) :
    a2bLoop [a, b, '=', '='] 0 0 0 acc
      = some (acc ++ [(va * 64 + vb) / 16 % 256]) := by
  rw [a2bLoop_alpha_step a va hva, if_neg (by omega),
    a2bLoop_alpha_step b vb hvb, if_pos (by omega)]
  norm_num
  exact a2bLoop_pad_close2 _ _

/-- A quad of three data characters closed by one pad decodes
successfully. -/
theorem a2bLoop_one_pad (a b c : Char) (va vb vc : Nat)
    (hva : b64val a = some va) (hvb : b64val b = some vb)
    (hvc : b64val c = some vc) (acc : List Nat) :
    a2bLoop [a, b, c, '='] 0 0 0 acc
      = some (acc ++
          [(va * 64 + vb) / 16 % 256,
           ((va * 64 + vb) % 16 * 64 + vc) / 4 % 256]) := by
  rw [a2bLoop_alpha_step a va hva, if_neg (by omega),
    a2bLoop_alpha_step b vb hvb, if_pos (by omega),
    a2bLoop_alpha_step c vc hvc, if_pos (by omega)]
  norm_num
  exact a2bLoop_pad_close3 _ _

/-- Every strictly valid base64 payload is accepted by the decode loop. -/
theorem a2bLoop_valid_isSome :
    ∀ (n : Nat) (s : List Char), s.length ≤ n →
      specValidBase64 s = true → ∀ acc : List Nat,
      (a2bLoop s 0 0 0 acc).isSome = true := by
  intro n
  induction n with
  | zero =>
      intro s hlen hv acc
      have : s = [] := List.length_eq_zero.mp (by omega)
      subst this
      rfl
  | succ n ih =>
      intro s hlen hv acc
      rcases s with _ | ⟨a, _ | ⟨b, _ | ⟨c, _ | ⟨d, rest⟩⟩⟩⟩
      · rfl
      · exact absurd hv (by simp [specValidBase64])
      · exact absurd hv (by simp [specValidBase64])
      · exact absurd hv (by simp [specValidBase64])
      · cases rest with
        | nil =>
            rw [specValidBase64, if_pos rfl] at hv
            simp only [Bool.and_eq_true, Bool.or_eq_true, beq_iff_eq,
              isB64Alpha] at hv
            obtain ⟨⟨ha, hb⟩, htail⟩ := hv
            obtain ⟨va, hva⟩ := Option.isSome_iff_exists.mp ha
            obtain ⟨vb, hvb⟩ := Option.isSome_iff_exists.mp hb
            rcases htail with (⟨hc, hd⟩ | ⟨hc, hd⟩) | ⟨hc, hd⟩
            · obtain ⟨vc, hvc⟩ := Option.isSome_iff_exists.mp hc
              obtain ⟨vd, hvd⟩ := Option.isSome_iff_exists.mp hd
              rw [show [a, b, c, d] = a :: b :: c :: d :: [] from rfl,
                a2bLoop_quad a b c d va vb vc vd hva hvb hvc hvd []]
              rfl
            · obtain ⟨vc, hvc⟩ := Option.isSome_iff_exists.mp hc
              subst hd
              rw [a2bLoop_one_pad a b c va vb vc hva hvb hvc]
              rfl
            · subst hc; subst hd
              rw [a2bLoop_two_pads a b va vb hva hvb]
              rfl
        | cons e rest2 =>
            rw [specValidBase64, if_neg (by simp)] at hv
            by_cases halpha :
              (isB64Alpha a && isB64Alpha b && isB64Alpha c && isB64Alpha d)
                = true
            · rw [if_pos halpha] at hv
              simp only [Bool.and_eq_true, isB64Alpha] at halpha
              obtain ⟨⟨⟨ha, hb⟩, hc⟩, hd⟩ := halpha
              obtain ⟨va, hva⟩ := Option.isSome_iff_exists.mp ha
              obtain ⟨vb, hvb⟩ := Option.isSome_iff_exists.mp hb
              obtain ⟨vc, hvc⟩ := Option.isSome_iff_exists.mp hc
              obtain ⟨vd, hvd⟩ := Option.isSome_iff_exists.mp hd
              rw [a2bLoop_quad a b c d va vb vc vd hva hvb hvc hvd (e :: rest2)]
              exact ih (e :: rest2) (by simp at hlen ⊢; omega) hv _
            · rw [if_neg halpha] at hv
              exact absurd hv (by simp)

/-- C7 counterexample: the payload of four percent signs is not valid
base64, yet b64decode does not fail on it: binascii silently discards the
characters and returns the empty byte string, so pre_parse_kinesis
succeeds.  Failure is therefore not equivalent to invalid base64. -/
theorem C7_invalid_payload_decodes :
    specValidBase64 "%%%%".toList = false ∧
    b64decode "%%%%".toList = some [] ∧
    pre_parse_kinesis ⟨"id1".toList, "arn1".toList, "%%%%".toList⟩
      = .ok [] := by
  refine ⟨by decide, by decide, by rfl⟩

/-- C7 amended: decodeStreamRecord returns exactly what the lenient
CPython 2 base64 decode produces (ok iff the loop accepts, error iff it
reports incorrect padding); the payload base64 of hello yields the raw
bytes hello; and every valid base64 payload decodes successfully — but
the converse fails: characters outside the alphabet are discarded rather
than rejected, so some invalid payloads also decode without error. -/
theorem C7_decode_behavior :
    (∀ (r : KinesisRecordModel) (bs : List Nat),
      pre_parse_kinesis r = .ok bs ↔ b64decode r.kinesisData = some bs) ∧
    (∀ r : KinesisRecordModel,
      pre_parse_kinesis r = .error .binasciiError ↔
        b64decode r.kinesisData = none) ∧
    pre_parse_kinesis ⟨"shardId-0".toList, "arn".toList, "aGVsbG8=".toList⟩
      = .ok [104, 101, 108, 108, 111] ∧
    (∀ s : List Char, specValidBase64 s = true →
      (b64decode s).isSome = true) := by
  refine ⟨?_, ?_, by rfl, ?_⟩
  · intro r bs
    cases h : b64decode r.kinesisData <;> simp [pre_parse_kinesis, h]
  · intro r
    cases h : b64decode r.kinesisData <;> simp [pre_parse_kinesis, h]
  · intro s hs
    exact a2bLoop_valid_isSome s.length s le_rfl hs []

/-- C7 witness: the amended theorem applied to the payload AA==. -/
theorem C7_decode_witness : (b64decode "AA==".toList).isSome = true :=
  C7_decode_behavior.2.2.2 "AA==".toList (by decide)

/-! ## Claim C8 -/

/-- Uppercase hexadecimal digit of a value below 16. -/
def toHexDigit (n : Nat) : Char :=
  if n < 10 then Char.ofNat (48 + n) else Char.ofNat (55 + n)

/-- Percent-encoding that escapes every byte, to state that unquoting is a
left inverse of URL escaping. -/
def percentEncodeAll : List Char → List Char
  | [] => []
  | c :: rest =>
      '%' :: toHexDigit (c.toNat / 16) :: toHexDigit (c.toNat % 16) ::
        percentEncodeAll rest

theorem toHexDigit_facts (n : Nat) (h : n < 16) :
    hexCharVal (toHexDigit n) = some n ∧ toHexDigit n ≠ '%' := by
  interval_cases n <;> exact ⟨by decide, by decide⟩

theorem splitOnPercentAux_encode :
    ∀ (bytes : List Char), (∀ c ∈ bytes, c.toNat < 256) →
      ∀ cur, splitOnPercentAux cur (percentEncodeAll bytes)
        = cur.reverse :: bytes.map
            (fun c => [toHexDigit (c.toNat / 16), toHexDigit (c.toNat % 16)]) := by
  intro bytes
  induction bytes with
  | nil => intro hb cur; rfl
  | cons c rest ih =>
      intro hb cur
      have hc : c.toNat < 256 := hb c (by simp)
      have h1 := (toHexDigit_facts (c.toNat / 16) (by omega)).2
      have h2 := (toHexDigit_facts (c.toNat % 16) (by omega)).2
      have ihr := ih (fun x hx => hb x (by simp [hx]))
        [toHexDigit (c.toNat % 16), toHexDigit (c.toNat / 16)]
      simp only [percentEncodeAll, splitOnPercentAux, if_pos rfl,
        if_neg h1, if_neg h2]
      rw [ihr]
      simp

theorem unquoteSeg_encoded (c : Char) (tail : List Char)
    (hc : c.toNat < 256) :
    unquoteSeg (toHexDigit (c.toNat / 16) :: toHexDigit (c.toNat % 16) :: tail)
      = c :: tail := by
  have h1 := (toHexDigit_facts (c.toNat / 16) (by omega)).1
  have h2 := (toHexDigit_facts (c.toNat % 16) (by omega)).1
  rw [unquoteSeg, h1, h2]
  have harith : 16 * (c.toNat / 16) + c.toNat % 16 = c.toNat := by omega
  show Char.ofNat (16 * (c.toNat / 16) + c.toNat % 16) :: tail = c :: tail
  rw [harith, Char.ofNat_toNat]

/-- urllib.unquote is a left inverse of escaping every byte. -/
theorem pyUnquote_percentEncodeAll (bytes : List Char)
    (hb : ∀ c ∈ bytes, c.toNat < 256) :
    pyUnquote (percentEncodeAll bytes) = bytes := by
  rw [pyUnquote, splitOnPercentAux_encode bytes hb []]
  simp only [List.reverse_nil, List.nil_append]
  induction bytes with
  | nil => rfl
  | cons c rest ih =>
      have hc : c.toNat < 256 := hb c (by simp)
      have ihr := ih (fun x hx => hb x (by simp [hx]))
      simp only [List.map_cons, List.flatten_cons, unquoteSeg_encoded c [] hc]
      rw [List.singleton_append, ihr]

/-- C8: pre_parse_s3 URL-unescapes the bucket name and the object key of
every well-formed envelope (the region and size are passed through), it
does unescape the documented example to the bucket my-space-bucket and the
key logs/2024/file.gz, and unquoting inverts percent escaping of every
byte sequence. -/
theorem C8_unquoted_reference :
    (∀ (reg b k sz : List Char) (n : Int), pyIntParse sz = some n →
      pre_parse_s3 ⟨some reg, some b, some k, some sz⟩
        = .ok (⟨reg, pyUnquote b, pyUnquote k⟩, n)) ∧
    pre_parse_s3 ⟨some "us-east-1".toList, some "my%20bucket".toList,
        some "logs%2F2024%2Ffile.gz".toList, some "1024".toList⟩
      = .ok (⟨"us-east-1".toList, "my bucket".toList,
          "logs/2024/file.gz".toList⟩, 1024) ∧
    (∀ bytes : List Char, (∀ c ∈ bytes, c.toNat < 256) →
      pyUnquote (percentEncodeAll bytes) = bytes) := by
  refine ⟨?_, by rfl, pyUnquote_percentEncodeAll⟩
  intro reg b k sz n h
  simp [pre_parse_s3, h]

/-- C8 witness: the general clause applied to a concrete envelope. -/
theorem C8_unquoted_witness :
    pre_parse_s3 ⟨some "r1".toList, some "b%20c".toList, some "k%2Fd".toList,
        some "7".toList⟩
      = .ok (⟨"r1".toList, pyUnquote "b%20c".toList,
          pyUnquote "k%2Fd".toList⟩, 7) :=
  C8_unquoted_reference.1 "r1".toList "b%20c".toList "k%2Fd".toList
    "7".toList 7 (by decide)

/-! ## Claim C9 -/

/-- C9 counterexample: an envelope whose declared size is the negative
integer -5 is not rejected: pre_parse_s3 succeeds, and the size check of
_download_s3_object passes (floor division keeps negatives below 128), so
materialization is attempted with one network call — the claim demands a
MalformedEnvelopeError before any materialization. -/
theorem C9_negative_size_not_rejected :
    pre_parse_s3 ⟨some "r".toList, some "b".toList, some "k".toList,
        some "-5".toList⟩
      = .ok (⟨"r".toList, "b".toList, "k".toList⟩, -5) ∧
    (download_s3_object "r".toList "b".toList "k".toList (-5)
        "/tmp".toList "rnd42abc".toList).netCalls = 1 ∧
    (download_s3_object "r".toList "b".toList "k".toList (-5)
        "/tmp".toList "rnd42abc".toList).result
      = .ok (mkstempPath "/tmp".toList "rnd42abc".toList "k".toList) := by
  refine ⟨by rfl, by decide, by rfl⟩

/-- C9 amended: a missing required field raises KeyError and a size that
int() cannot parse raises ValueError (the MalformedEnvelopeError cases
that do hold); but a size that parses to a negative integer is accepted,
and every negative size passes the ceiling check of _download_s3_object,
so materialization is attempted instead of the claimed rejection. -/
theorem C9_malformed_envelope_behavior :
    (∀ r : S3RecordModel,
      r.awsRegion = none ∨ r.bucketName = none ∨ r.objectKey = none ∨
        r.objectSize = none → pre_parse_s3 r = .error .keyError) ∧
    (∀ reg b k sz : List Char, pyIntParse sz = none →
      pre_parse_s3 ⟨some reg, some b, some k, some sz⟩
        = .error .valueError) ∧
    (∀ (reg b k sz : List Char) (n : Int), pyIntParse sz = some n →
      pre_parse_s3 ⟨some reg, some b, some k, some sz⟩
        = .ok (⟨reg, pyUnquote b, pyUnquote k⟩, n)) ∧
    (∀ (n : Int) (region bucket key dir rand : List Char), n < 0 →
      (download_s3_object region bucket key n dir rand).netCalls = 1) := by
  refine ⟨?_, ?_, ?_, ?_⟩
  · rintro ⟨o1, o2, o3, o4⟩ h
    rcases h with h | h | h | h <;> simp only at h <;> subst h
    · rfl
    · cases o1 <;> rfl
    · cases o1 <;> cases o2 <;> rfl
    · cases o1 <;> cases o2 <;> cases o3 <;> rfl
  · intro reg b k sz h
    simp [pre_parse_s3, h]
  · intro reg b k sz n h
    simp [pre_parse_s3, h]
  · intro n region bucket key dir rand hn
    have hcheck : ¬(128 < (n.fdiv 1024).fdiv 1024) := by
      rw [Int.fdiv_eq_ediv _ (by norm_num), Int.fdiv_eq_ediv _ (by norm_num)]
      have h1 : n / 1024 < 0 := Int.ediv_neg' hn (by norm_num)
      have h2 : n / 1024 / 1024 < 0 := Int.ediv_neg' h1 (by norm_num)
      omega
    rw [download_s3_object, if_neg hcheck]

/-- C9 witness: the amended theorem applied to a record with a missing
bucket, an unparsable size, and a concrete negative size. -/
theorem C9_malformed_witness :
    pre_parse_s3 ⟨some "r".toList, none, some "k".toList, some "9".toList⟩
      = .error .keyError ∧
    pre_parse_s3 ⟨some "r".toList, some "b".toList, some "k".toList,
        some "12a".toList⟩ = .error .valueError ∧
    (download_s3_object "r".toList "b".toList "k".toList (-1)
        "/tmp".toList "uvw".toList).netCalls = 1 :=
  ⟨C9_malformed_envelope_behavior.1
      ⟨some "r".toList, none, some "k".toList, some "9".toList⟩
      (Or.inr (Or.inl rfl)),
   C9_malformed_envelope_behavior.2.1 "r".toList "b".toList "k".toList
      "12a".toList (by decide),
   C9_malformed_envelope_behavior.2.2.2 (-1) "r".toList "b".toList
      "k".toList "/tmp".toList "uvw".toList (by decide)⟩

/-! ## Claim C10 -/

theorem rfindIdx_eq_none_iff (c : Char) :
    ∀ s : List Char, rfindIdx s c = none ↔ c ∉ s := by
  intro s
  induction s with
  | nil => simp [rfindIdx]
  | cons a rest ih =>
      rw [rfindIdx]
      cases h : rfindIdx rest c with
      | some i =>
          have hmem : c ∈ rest := by
            by_contra hmem
            rw [ih.mpr hmem] at h
            exact Option.noConfusion h
          simp [hmem]
      | none =>
          have hnr : c ∉ rest := ih.mp h
          by_cases hac : a = c
          · subst hac; simp
          · simp [hac, hnr, Ne.symm hac]

theorem rfindIdx_append (c : Char) (xs ys : List Char) :
    rfindIdx (xs ++ ys) c =
      match rfindIdx ys c with
      | some i => some (xs.length + i)
      | none => rfindIdx xs c := by
  induction xs with
  | nil => cases h : rfindIdx ys c <;> simp [h, rfindIdx]
  | cons a rest ih =>
      rw [List.cons_append, rfindIdx, ih]
      cases h : rfindIdx ys c with
      | some i =>
          simp only [List.length_cons]
          congr 1
          omega
      | none =>
          conv_rhs => rw [rfindIdx]

theorem rfindIdx_lt_length (c : Char) :
    ∀ (s : List Char) (i : Nat), rfindIdx s c = some i → i < s.length := by
  intro s
  induction s with
  | nil => intro i h; simp [rfindIdx] at h
  | cons a rest ih =>
      intro i h
      rw [rfindIdx] at h
      cases h2 : rfindIdx rest c with
      | some j =>
          rw [h2] at h
          have hij : i = j + 1 := by
            have := Option.some.inj h; omega
          have := ih j h2
          simp [hij]
          omega
      | none =>
          rw [h2] at h
          by_cases hac : a = c
          · rw [if_pos hac] at h
            have : i = 0 := (Option.some.inj h).symm
            simp [this]
          · rw [if_neg hac] at h
            exact Option.noConfusion h

/-- splitext finds an extension when the last dot lies inside the
basename and the basename is not made of dots only up to it. -/
theorem splitext_of_finds (p : List Char) (dIdx sep : Nat)
    (hd : rfindIdx p '.' = some dIdx) (hs : rfindIdx p '/' = some sep)
    (hlt : sep + 1 ≤ dIdx)
    (hany : ((p.drop (sep + 1)).take (dIdx - (sep + 1))).any
      (fun c => !(c = '.')) = true) :
    splitext p = (p.take dIdx, p.drop dIdx) := by
  simp only [splitext, hd, hs]
  rw [if_pos hlt, if_pos hany]

/-- splitext finds no extension when the path has no dot at all. -/
theorem splitext_no_dot (p : List Char) (hd : rfindIdx p '.' = none) :
    splitext p = (p, []) := by
  simp only [splitext, hd]

/-- splitext finds no extension when the last dot lies before the last
path separator. -/
theorem splitext_dot_before_sep (p : List Char) (dIdx sep : Nat)
    (hd : rfindIdx p '.' = some dIdx) (hs : rfindIdx p '/' = some sep)
    (hlt : ¬(sep + 1 ≤ dIdx)) :
    splitext p = (p, []) := by
  simp only [splitext, hd, hs]
  rw [if_neg hlt]

theorem pyReplace_no_slash (key : List Char) :
    '/' ∉ pyReplace key '/' '-' := by
  intro h
  rw [pyReplace] at h
  obtain ⟨a, ha, hfa⟩ := List.mem_map.mp h
  by_cases h2 : a = '/'
  · rw [if_pos h2] at hfa
    exact absurd hfa (by decide)
  · rw [if_neg h2] at hfa
    exact h2 hfa

theorem pyReplace_dot_mem (key : List Char) :
    '.' ∈ pyReplace key '/' '-' ↔ '.' ∈ key := by
  rw [pyReplace]
  constructor
  · intro h
    obtain ⟨a, ha, hfa⟩ := List.mem_map.mp h
    by_cases h2 : a = '/'
    · rw [if_pos h2] at hfa
      exact absurd hfa (by decide)
    · rw [if_neg h2] at hfa
      rwa [hfa] at ha
  · intro h
    exact List.mem_map.mpr ⟨'.', h, by decide⟩

theorem pyReplace_char_eq (a t : Char) (ht : ¬t = '-')
    (h : (if a = '/' then '-' else a) = t) : a = t := by
  by_cases ha : a = '/'
  · rw [if_pos ha] at h
    exact absurd h.symm ht
  · rwa [if_neg ha] at h

/-- Flattening the slashes of a key neither creates nor destroys a
trailing .gz. -/
theorem pyReplace_gz_suffix (key : List Char) :
    (∃ ys, pyReplace key '/' '-' = ys ++ gzExtension) ↔
      ∃ ys, key = ys ++ gzExtension := by
  constructor
  · rintro ⟨zs, hz⟩
    rw [pyReplace] at hz
    obtain ⟨s1, s2, hk, hs1, hs2⟩ := List.map_eq_append_iff.mp hz
    rcases s2 with _ | ⟨x, _ | ⟨y, _ | ⟨w, _ | ⟨v, t⟩⟩⟩⟩ <;>
      simp only [gzExtension, List.map_nil, List.map_cons] at hs2
    · exact absurd hs2 (by decide)
    · exact absurd hs2 (by simp)
    · exact absurd hs2 (by simp)
    · obtain ⟨hx, hy, hw⟩ : (if x = '/' then '-' else x) = '.' ∧
          (if y = '/' then '-' else y) = 'g' ∧
          (if w = '/' then '-' else w) = 'z' := by
        simpa using hs2
      have hx2 := pyReplace_char_eq x '.' (by decide) hx
      have hy2 := pyReplace_char_eq y 'g' (by decide) hy
      have hw2 := pyReplace_char_eq w 'z' (by decide) hw
      subst hx2; subst hy2; subst hw2
      exact ⟨s1, by rw [hk]; rfl⟩
    · exact absurd hs2 (by simp)
  · rintro ⟨ys, hy⟩
    refine ⟨pyReplace ys '/' '-', ?_⟩
    rw [hy, pyReplace, pyReplace, List.map_append]
    congr 1

/-- The extension splitext finds on a mkstemp path whose random component
is free of dots and slashes and whose suffix is free of slashes: it is
.gz exactly when the suffix ends in .gz. -/
theorem splitext_mkstemp (dir rand flat : List Char)
    (hdot : '.' ∉ rand) (hslash : '/' ∉ rand) (hfs : '/' ∉ flat) :
    (splitext (mkstempPath dir rand flat)).2 = gzExtension
      ↔ ∃ ys, flat = ys ++ gzExtension := by
  have hpath1 : mkstempPath dir rand flat
      = dir ++ '/' :: ('t' :: 'm' :: 'p' :: (rand ++ flat)) := rfl
  have hpath2 : mkstempPath dir rand flat
      = (dir ++ '/' :: 't' :: 'm' :: 'p' :: rand) ++ flat := by
    simp [mkstempPath]
  have hpath3 : mkstempPath dir rand flat
      = (dir ++ ['/']) ++ ('t' :: 'm' :: 'p' :: (rand ++ flat)) := by
    simp [mkstempPath]
  have hnoslash_tail : '/' ∉ ('t' :: 'm' :: 'p' :: (rand ++ flat)) := by
    intro h
    simp only [List.mem_cons, List.mem_append] at h
    rcases h with h | h | h | h | h
    · exact absurd h (by decide)
    · exact absurd h (by decide)
    · exact absurd h (by decide)
    · exact hslash h
    · exact hfs h
  have hsep : rfindIdx (mkstempPath dir rand flat) '/' = some dir.length := by
    rw [hpath1, rfindIdx_append]
    have h0 : rfindIdx ('/' :: ('t' :: 'm' :: 'p' :: (rand ++ flat))) '/'
        = some 0 := by
      rw [rfindIdx, (rfindIdx_eq_none_iff '/' _).mpr hnoslash_tail]
      simp
    rw [h0]
    simp
  cases hj : rfindIdx flat '.' with
  | none =>
      have hflat_nd : '.' ∉ flat := (rfindIdx_eq_none_iff '.' flat).mp hj
      have hrhs : ¬∃ ys, flat = ys ++ gzExtension := by
        rintro ⟨ys, hy⟩
        exact hflat_nd (by rw [hy]; simp [gzExtension])
      have hmid : rfindIdx ('/' :: 't' :: 'm' :: 'p' :: rand) '.' = none := by
        rw [rfindIdx_eq_none_iff]
        intro h
        simp only [List.mem_cons] at h
        rcases h with h | h | h | h | h
        · exact absurd h (by decide)
        · exact absurd h (by decide)
        · exact absurd h (by decide)
        · exact absurd h (by decide)
        · exact hdot h
      have hdots : rfindIdx (mkstempPath dir rand flat) '.'
          = rfindIdx dir '.' := by
        rw [hpath2, rfindIdx_append, hj]
        show rfindIdx (dir ++ '/' :: 't' :: 'm' :: 'p' :: rand) '.'
          = rfindIdx dir '.'
        rw [rfindIdx_append, hmid]
      cases hd0 : rfindIdx dir '.' with
      | none =>
          rw [splitext_no_dot _ (by rw [hdots, hd0])]
          exact iff_of_false (fun h => by simp [gzExtension] at h) hrhs
      | some d0 =>
          have hlt : d0 < dir.length := rfindIdx_lt_length '.' dir d0 hd0
          rw [splitext_dot_before_sep _ d0 dir.length
            (by rw [hdots, hd0]) hsep (by omega)]
          exact iff_of_false (fun h => by simp [gzExtension] at h) hrhs
  | some j =>
      have hjlt : j < flat.length := rfindIdx_lt_length '.' flat j hj
      have hdots : rfindIdx (mkstempPath dir rand flat) '.'
          = some ((dir ++ '/' :: 't' :: 'm' :: 'p' :: rand).length + j) := by
        rw [hpath2, rfindIdx_append, hj]
      have hplen : (dir ++ '/' :: 't' :: 'm' :: 'p' :: rand).length
          = dir.length + 4 + rand.length := by
        simp [List.length_append]
        omega
      have hdrop : (mkstempPath dir rand flat).drop (dir.length + 1)
          = 't' :: 'm' :: 'p' :: (rand ++ flat) := by
        rw [hpath3]
        have h1 : dir.length + 1 = (dir ++ ['/']).length + 0 := by simp
        rw [h1, List.drop_append]
        rfl
      have hany : (((mkstempPath dir rand flat).drop (dir.length + 1)).take
          ((dir ++ '/' :: 't' :: 'm' :: 'p' :: rand).length + j
            - (dir.length + 1))).any (fun c => !(c = '.')) = true := by
        rw [hdrop]
        have hcount : (dir ++ '/' :: 't' :: 'm' :: 'p' :: rand).length + j
            - (dir.length + 1) = (2 + rand.length + j) + 1 := by
          rw [hplen]; omega
        rw [hcount, List.take_succ_cons, List.any_cons]
        simp
      rw [splitext_of_finds (mkstempPath dir rand flat) _ _ hdots hsep
        (by rw [hplen]; omega) hany]
      have hdropd : (mkstempPath dir rand flat).drop
          ((dir ++ '/' :: 't' :: 'm' :: 'p' :: rand).length + j)
            = flat.drop j := by
        rw [hpath2, List.drop_append]
      show (mkstempPath dir rand flat).drop _ = gzExtension ↔ _
      rw [hdropd]
      constructor
      · intro h
        exact ⟨flat.take j, by rw [← h, List.take_append_drop]⟩
      · rintro ⟨zs, hz⟩
        have hfind : rfindIdx flat '.' = some (zs.length + 0) := by
          rw [hz, rfindIdx_append,
            (by decide : rfindIdx gzExtension '.' = some 0)]
        have hjz : j = zs.length := by
          rw [hj] at hfind
          have := Option.some.inj hfind
          omega
        have hz0 : zs.length = zs.length + 0 := by omega
        rw [hz, hjz, hz0, List.drop_append]
        rfl

/-- C10 counterexample: for the key v1.2/data the temporary path ends
with the flattened key v1.2-data, whose last dot sits in the flattened
directory part, so splitext finds the extension .2-data on the temporary
path, while the key itself has no extension at all (its dot lies before
its slash): the two trailing extensions are not equal. -/
theorem C10_extension_not_always_preserved :
    (splitext (mkstempPath "/tmp".toList "abc12345".toList
        (pyReplace "v1.2/data".toList '/' '-'))).2 = ".2-data".toList ∧
    (splitext "v1.2/data".toList).2 = [] ∧
    ".2-data".toList ≠ ([] : List Char) := by
  refine ⟨by decide, by decide, by decide⟩

/-- C10 amended: the temporary path ends with the key with every slash
replaced by a dash, the random component sitting before that suffix; the
temporary path's extension is the extension of that flattened key — which
can differ from the key's own extension when the key's last dot lies in a
directory segment — but it equals .gz exactly when the key ends in .gz,
so the Line Stream Producer decompresses (takes the gzip branch of
read_s3_file) exactly for keys ending in .gz. -/
theorem C10_path_suffix_and_gz_detection (dir rand key : List Char)
    (hdot : '.' ∉ rand) (hslash : '/' ∉ rand) :
    (∃ pre, mkstempPath dir rand (pyReplace key '/' '-')
        = pre ++ pyReplace key '/' '-') ∧
    ((splitext (mkstempPath dir rand (pyReplace key '/' '-'))).2
        = gzExtension ↔ ∃ ys, key = ys ++ gzExtension) ∧
    (∀ (gz : List Char → Option (List Char)) (fs : PyFS)
        (content : List Char),
      fs (mkstempPath dir rand (pyReplace key '/' '-')) = some content →
      ((∃ ys, key = ys ++ gzExtension) →
        producedData gz fs (mkstempPath dir rand (pyReplace key '/' '-'))
          = gz content) ∧
      ((¬∃ ys, key = ys ++ gzExtension) →
        producedData gz fs (mkstempPath dir rand (pyReplace key '/' '-'))
          = some content)) := by
  have hgz : (splitext (mkstempPath dir rand (pyReplace key '/' '-'))).2
      = gzExtension ↔ ∃ ys, key = ys ++ gzExtension := by
    rw [splitext_mkstemp dir rand (pyReplace key '/' '-') hdot hslash
      (pyReplace_no_slash key)]
    exact pyReplace_gz_suffix key
  refine ⟨⟨dir ++ '/' :: 't' :: 'm' :: 'p' :: rand, by simp [mkstempPath]⟩,
    hgz, ?_⟩
  intro gz fs content hp
  constructor
  · intro h
    rw [producedData, hp]
    simp only [if_pos (hgz.mpr h)]
  · intro h
    rw [producedData, hp]
    simp only [if_neg (fun hx => h (hgz.mp hx))]

/-- C10 witness: the amended theorem applied to the key logs/x.gz, whose
materialized object is then decompressed, and probing the negative branch
with the key data.txt. -/
theorem C10_path_suffix_witness :
    (splitext (mkstempPath "/tmp".toList "q1w2e3r4".toList
        (pyReplace "logs/x.gz".toList '/' '-'))).2 = gzExtension ∧
    producedData (fun _ => some "u\n".toList)
      (singleFS (mkstempPath "/tmp".toList "q1w2e3r4".toList
        (pyReplace "data.txt".toList '/' '-')) "v\n".toList)
      (mkstempPath "/tmp".toList "q1w2e3r4".toList
        (pyReplace "data.txt".toList '/' '-')) = some "v\n".toList :=
  ⟨(C10_path_suffix_and_gz_detection "/tmp".toList "q1w2e3r4".toList
      "logs/x.gz".toList (by decide) (by decide)).2.1.mpr
      ⟨"logs/x".toList, by decide⟩,
   ((C10_path_suffix_and_gz_detection "/tmp".toList "q1w2e3r4".toList
      "data.txt".toList (by decide) (by decide)).2.2
      (fun _ => some "u\n".toList)
      (singleFS (mkstempPath "/tmp".toList "q1w2e3r4".toList
        (pyReplace "data.txt".toList '/' '-')) "v\n".toList)
      "v\n".toList (by simp [singleFS])).2
      (by
        rintro ⟨ys, hy⟩
        have h3 := congrArg List.reverse hy
        rw [List.reverse_append] at h3
        simp [gzExtension] at h3)⟩

end StreamAlert
